import Mathlib

/-!
Verification of the Yarn constraints scripts of the micro-app monorepo
(`yarn.config.cjs` and the companion constraints module) together with the
`SendMoney` icon component, against their natural-language specification.

The constraint engine context (`Yarn.workspaces()`, `Yarn.dependencies(filter)`,
`dependency.update` / `dependency.delete` / `dependency.error`, `workspace.set` /
`workspace.error`) is embedded shallowly: a run works on an immutable snapshot of
the project and every rule returns the list of effects it stages, in the order the
source code produces them.  An external applier consumes the effects.
-/

/-- A JSON value, as found in a `package.json` manifest: the manifests and the
enforced template fields are plain parsed JSON. -/
inductive JValue where
  | null
  | bool (b : Bool)
  | num (n : Int)
  | str (s : String)
  | arr (xs : List JValue)
  | obj (fields : List (String × JValue))
  deriving Repr

mutual

/-- Structural (deep) equality of JSON values, used by the external applier to
decide whether a staged value differs from the value already present. -/
def JValue.beq : JValue → JValue → Bool
  | .null, .null => true
  | .bool a, .bool b => a == b
  | .num a, .num b => a == b
  | .str a, .str b => a == b
  | .arr xs, .arr ys => JValue.beqList xs ys
  | .obj xs, .obj ys => JValue.beqObj xs ys
  | _, _ => false

/-- Deep equality on JSON arrays. -/
def JValue.beqList : List JValue → List JValue → Bool
  | [], [] => true
  | x :: xs, y :: ys => JValue.beq x y && JValue.beqList xs ys
  | _, _ => false

/-- Deep equality on JSON object field lists. -/
def JValue.beqObj : List (String × JValue) → List (String × JValue) → Bool
  | [], [] => true
  | (k, v) :: xs, (k2, v2) :: ys => k == k2 && JValue.beq v v2 && JValue.beqObj xs ys
  | _, _ => false

end

/-- JavaScript strict equality (`===`) as it behaves on the values the rules
compare: primitives compare by value; objects and arrays compare by reference, and
since the enforced template object and the workspace manifests come from separate
`JSON.parse` calls, two composite values are never the same reference, so the
comparison is `false` for them. -/
def jsStrictEq : JValue → JValue → Bool
  | .null, .null => true
  | .bool a, .bool b => a == b
  | .num a, .num b => a == b
  | .str a, .str b => a == b
  | _, _ => false

/-- Strict equality whose left operand may be absent (`undefined`): in JavaScript
`undefined === v` is `false` for every defined JSON value `v`. -/
def jsStrictEqOpt : Option JValue → JValue → Bool
  | some a, b => jsStrictEq a b
  | none, _ => false

/-- Field lookup on a manifest object (`manifest[field]`); `none` is `undefined`. -/
def manifestGet (m : List (String × JValue)) (f : String) : Option JValue :=
  (m.find? (fun p => p.1 == f)).map Prod.snd

/-- Optional-chained member access `v?.[key]` for the manifest shapes the rules
read: a string key on a plain object; on `null`, primitives and arrays the access
yields `undefined`. -/
def jvalueGet : JValue → String → Option JValue
  | .obj fs, f => (fs.find? (fun p => p.1 == f)).map Prod.snd
  | _, _ => none

/-- The type of a dependency entry in a manifest. -/
inductive DependencyType where
  | dependencies
  | devDependencies
  | peerDependencies
  deriving DecidableEq, Repr

/-- A dependency declared by one workspace: identifier, declared range, type. -/
structure Dependency where
  workspaceCwd : String
  ident : String
  range : String
  depType : DependencyType
  deriving DecidableEq, Repr

/-- A workspace: its path (`cwd`), its package name, and its manifest. -/
structure Workspace where
  cwd : String
  ident : Option String
  manifest : List (String × JValue)
  deriving Repr

/-- The read-only project snapshot a constraints run receives: all workspaces and
all declared dependencies, in project iteration order. -/
structure Snapshot where
  workspaces : List Workspace
  dependencies : List Dependency
  deriving Repr

/-- `Yarn.dependencies({ident})`: every declared dependency with that identifier. -/
def Snapshot.dependenciesByIdent (snap : Snapshot) (ident : String) : List Dependency :=
  snap.dependencies.filter (fun d => d.ident == ident)

/-- `Yarn.workspace({ident})`: the workspace with that package name, if any. -/
def Snapshot.workspaceByIdent (snap : Snapshot) (ident : String) : Option Workspace :=
  snap.workspaces.find? (fun w => w.ident == some ident)

/-- An effect staged by a rule: a correction (`depUpdate`, `depDelete`, `wsSet`)
or a diagnostic (`depError`, `wsError`).  Corrections are advisory; the external
tool applies them. -/
inductive Effect where
  | depUpdate (workspaceCwd : String) (depType : DependencyType) (ident : String) (range : String)
  | depDelete (workspaceCwd : String) (depType : DependencyType) (ident : String)
  | depError (workspaceCwd : String) (depType : DependencyType) (ident : String) (message : String)
  | wsSet (workspaceCwd : String) (path : List String) (value : JValue)
  | wsError (workspaceCwd : String) (message : String)
  deriving Repr

/-- Whether an effect is a diagnostic (as opposed to a staged correction). -/
def Effect.isDiagnostic : Effect → Bool
  | .depError _ _ _ _ => true
  | .wsError _ _ => true
  | _ => false

/-- The workspace an effect is attached to. -/
def Effect.cwd : Effect → String
  | .depUpdate c _ _ _ => c
  | .depDelete c _ _ => c
  | .depError c _ _ _ => c
  | .wsSet c _ _ => c
  | .wsError c _ => c

/-- Whether an effect modifies the given dependency entry (same workspace, same
dependency type, same identifier). -/
def Effect.touchesDep : Effect → Dependency → Bool
  | .depUpdate c t i _, d => c == d.workspaceCwd && t == d.depType && i == d.ident
  | .depDelete c t i, d => c == d.workspaceCwd && t == d.depType && i == d.ident
  | _, _ => false

/-- The range an effect leaves a dependency entry it touches with: a staged
update carries the new range, a staged deletion removes the entry. -/
def Effect.rangePayload : Effect → Option String
  | .depUpdate _ _ _ r => some r
  | _ => none

/-- The diagnostics contained in a list of staged effects. -/
def diagnostics (effects : List Effect) : List Effect :=
  effects.filter Effect.isDiagnostic

/-- Folds a list of effects over one dependency entry: later updates overwrite
earlier ones, a deletion removes the entry.  `acc` is the range so far (`none`
once deleted). -/
def stagedRangeAux (d : Dependency) (acc : Option String) : List Effect → Option String
  | [] => acc
  | Effect.depUpdate c t i r :: rest =>
      stagedRangeAux d
        (if c == d.workspaceCwd && t == d.depType && i == d.ident then some r else acc) rest
  | Effect.depDelete c t i :: rest =>
      stagedRangeAux d
        (if c == d.workspaceCwd && t == d.depType && i == d.ident then none else acc) rest
  | _ :: rest => stagedRangeAux d acc rest

/-- The range a dependency ends up with after the staged effects are applied:
its declared range if untouched, the last staged update otherwise, `none` if the
dependency was deleted. -/
def stagedRange (effects : List Effect) (d : Dependency) : Option String :=
  stagedRangeAux d (some d.range) effects

/-- `requiredWorkspacesFields` from the constraints module: fields every
`package.json` must declare. -/
def requiredWorkspacesFields : List String :=
  ["name", "version", "author", "license", "description"]

/-- `requiredScripts` from the constraints module. -/
def requiredScripts : List String := ["build", "start", "lint"]

/-- `forbiddenDependencies` from the constraints module. -/
def forbiddenDependencies : List String := ["yup", "lodash", "vega"]

/-- `allowedRanges` from the constraints module: identifier to required range. -/
def allowedRanges : List (String × String) := [("expo", "~50.0.0")]

/-- `enforceDependencyRanges`: for every configured (identifier, range) pair,
stage an update of every matching dependency to that range. -/
def enforceDependencyRanges (snap : Snapshot) (ranges : List (String × String)) :
    List Effect :=
  ranges.flatMap (fun pr =>
    (snap.dependenciesByIdent pr.1).map
      (fun d => Effect.depUpdate d.workspaceCwd d.depType d.ident pr.2))

/-- `validatePresenceOfRequiredFields`: for every workspace and required field,
emit an error if the manifest does not declare the field. -/
def validatePresenceOfRequiredFields (snap : Snapshot) (requiredFields : List String) :
    List Effect :=
  snap.workspaces.flatMap (fun w =>
    requiredFields.flatMap (fun f =>
      if (w.manifest.map Prod.fst).contains f then []
      else [Effect.wsError w.cwd ("Missing required field: " ++ f)]))

/-- `forbidDependencies`: stage the deletion of every dependency whose identifier
is in the forbidden list. -/
def forbidDependencies (snap : Snapshot) (forbidden : List String) : List Effect :=
  forbidden.flatMap (fun ident =>
    (snap.dependenciesByIdent ident).map
      (fun d => Effect.depDelete d.workspaceCwd d.depType d.ident))

/-- The `constraints` entry point of the constraints module: of its rule list only
`enforceDependencyRanges` is enabled (the other calls are commented out). -/
def constraintsPart000 (snap : Snapshot) : List Effect :=
  enforceDependencyRanges snap allowedRanges

/-- `forbidDependency` from `yarn.config.cjs`: report an error on every dependency
with the given identifier. -/
def forbidDependency (snap : Snapshot) (ident explanation : String) : List Effect :=
  (snap.dependenciesByIdent ident).map
    (fun d => Effect.depError d.workspaceCwd d.depType d.ident explanation)

/-- The effects `enforceFieldsFromCustomPackage` stages for one template field on
one workspace.  A value passing the `typeof value === "object" &&
!Array.isArray(value) && value !== null` test (exactly the `obj` constructor)
enforces only its listed sub-fields, each set exactly when the current sub-value
differs under `!==`; any other value is enforced as a whole field, set exactly
when the current value differs under `!==`. -/
def enforceFieldEffects (w : Workspace) (f : String) : JValue → List Effect
  | JValue.obj subs =>
      subs.flatMap (fun sv =>
        if jsStrictEqOpt ((manifestGet w.manifest f).bind (fun x => jvalueGet x sv.1))
            sv.2 then []
        else [Effect.wsSet w.cwd [f, sv.1] sv.2])
  | v =>
      if jsStrictEqOpt (manifestGet w.manifest f) v then []
      else [Effect.wsSet w.cwd [f] v]

/-- The body of `enforceFieldsFromCustomPackage` for a single (non-root)
workspace: iterate `Object.entries(fields)`. -/
def enforceFieldsForWorkspace (w : Workspace) (fields : List (String × JValue)) :
    List Effect :=
  fields.flatMap (fun fv => enforceFieldEffects w fv.1 fv.2)

/-- `enforceFieldsFromCustomPackage` from `yarn.config.cjs`: skip the root
workspace, and enforce the template fields on every other workspace. -/
def enforceFieldsFromCustomPackage (snap : Snapshot) (fields : List (String × JValue)) :
    List Effect :=
  snap.workspaces.flatMap (fun w =>
    if w.cwd == "." then [] else enforceFieldsForWorkspace w fields)

/-- `IGNORE_CONSISTENT_DEPENDENCIES_FOR` from `yarn.config.cjs`. -/
def IGNORE_CONSISTENT_DEPENDENCIES_FOR : List String :=
  [".", "packages/docusaurus"]

/-- The body of one outer-loop iteration of
`enforceConsistentDependenciesAcrossTheProject`: skip ignored and peer
dependencies, then walk every dependency sharing the identifier and stage an
update to that other dependency's range, skipping ignored and peer entries, and
skipping the pair when a dev dependency is involved and the identifier belongs
to a workspace of the project. -/
def consistentBlock (snap : Snapshot) (dependency : Dependency) : List Effect :=
  if IGNORE_CONSISTENT_DEPENDENCIES_FOR.contains dependency.workspaceCwd then []
  else if dependency.depType == DependencyType.peerDependencies then []
  else
    (snap.dependenciesByIdent dependency.ident).flatMap (fun other =>
      if IGNORE_CONSISTENT_DEPENDENCIES_FOR.contains other.workspaceCwd then []
      else if other.depType == DependencyType.peerDependencies then []
      else if (dependency.depType == DependencyType.devDependencies
                || other.depType == DependencyType.devDependencies)
              && (snap.workspaceByIdent other.ident).isSome then []
      else [Effect.depUpdate dependency.workspaceCwd dependency.depType
              dependency.ident other.range])

/-- `enforceConsistentDependenciesAcrossTheProject` from `yarn.config.cjs`. -/
def enforceConsistentDependenciesAcrossTheProject (snap : Snapshot) : List Effect :=
  snap.dependencies.flatMap (consistentBlock snap)

/-- The dependencies sharing a dependency's identifier that the inner loop of
the consistency rule does not skip outright: the non-ignored, non-peer entries
(the dependency itself included). -/
def consistentMatching (snap : Snapshot) (d : Dependency) : List Dependency :=
  (snap.dependenciesByIdent d.ident).filter (fun o =>
    !IGNORE_CONSISTENT_DEPENDENCIES_FOR.contains o.workspaceCwd &&
    !(o.depType == DependencyType.peerDependencies))

/-- The state of the custom template file on disk, as a run observes it:
absent, present but not valid JSON (so that `JSON.parse` throws a SyntaxError),
or present with the JSON value its content parses to. -/
inductive TemplateFile where
  | absent
  | malformed
  | parsed (value : JValue)
  deriving Repr

/-- The exceptions the configuration file can raise during a run: the explicit
missing-template error thrown by `loadCustomPackageFields`, the SyntaxError
`JSON.parse` throws on a malformed template, and the TypeError `Object.entries`
throws on a null template. -/
inductive RunError where
  | missingTemplate (path : String)
  | jsonParseError
  | entriesOfNull
  deriving DecidableEq, Repr

/-- `loadCustomPackageFields` from `yarn.config.cjs`: throw the explicit error
if the file is absent (`path.resolve` embedded as the identity on the configured
path), otherwise `JSON.parse` its content, which throws a SyntaxError when the
file is present but malformed.  A successfully parsed value of any JSON shape is
returned as is. -/
def loadCustomPackageFields (customPackagePath : String) (file : TemplateFile) :
    Except RunError JValue :=
  match file with
  | TemplateFile.absent => Except.error (RunError.missingTemplate customPackagePath)
  | TemplateFile.malformed => Except.error RunError.jsonParseError
  | TemplateFile.parsed v => Except.ok v

/-- `Object.entries` on a parsed JSON value: throws a TypeError on `null`,
yields the own enumerable string-keyed entries otherwise (the fields of an
object, index entries for arrays and strings, none for numbers and booleans). -/
def jsObjectEntries : JValue → Except RunError (List (String × JValue))
  | JValue.null => Except.error RunError.entriesOfNull
  | JValue.obj fs => Except.ok fs
  | JValue.arr xs => Except.ok ((xs.enum).map (fun p => (toString p.1, p.2)))
  | JValue.str s => Except.ok ((s.data.enum).map
      (fun p => (toString p.1, JValue.str (String.mk [p.2]))))
  | JValue.num _ => Except.ok []
  | JValue.bool _ => Except.ok []

/-- The workspace loop of `enforceFieldsFromCustomPackage` with the
`Object.entries(fields)` call of each iteration able to throw: the root
workspace is skipped before that call, every other workspace stages its field
corrections, and a throw aborts the whole run at the first offending workspace,
leaving no staged effects. -/
def enforceFieldsLoop (fields : JValue) : List Workspace → Except RunError (List Effect)
  | [] => Except.ok []
  | w :: rest =>
      if w.cwd == "." then enforceFieldsLoop fields rest
      else
        match jsObjectEntries fields with
        | Except.error e => Except.error e
        | Except.ok entries =>
            match enforceFieldsLoop fields rest with
            | Except.error e => Except.error e
            | Except.ok effs => Except.ok (enforceFieldsForWorkspace w entries ++ effs)

/-- The `constraints` entry point of `yarn.config.cjs`: load and parse the
template `package.json` (throwing if it is absent or malformed, before any rule
has run), then run `enforceFieldsFromCustomPackage` over the workspaces; every
other rule call is commented out. -/
def constraintsYarnConfig (file : TemplateFile) (snap : Snapshot) :
    Except RunError (List Effect) :=
  match loadCustomPackageFields "./template-package.json" file with
  | Except.error e => Except.error e
  | Except.ok fields => enforceFieldsLoop fields snap.workspaces

/-- One full evaluation over a snapshot: the two enabled rules of the two
constraints files, given the parsed template fields. -/
def runEvaluator (snap : Snapshot) (fields : List (String × JValue)) : List Effect :=
  enforceFieldsFromCustomPackage snap fields ++ constraintsPart000 snap

/-- Deep equality against a possibly-absent current value, used by the applier. -/
def jvalueOptEq : Option JValue → JValue → Bool
  | some a, b => JValue.beq a b
  | none, _ => false

/-- Reads a manifest along a field path. -/
def jvalueGetPath (v : JValue) : List String → Option JValue
  | [] => some v
  | f :: rest => (jvalueGet v f).bind (fun x => jvalueGetPath x rest)

/-- Reads a manifest along a field path (first step on the manifest itself). -/
def manifestGetPath (m : List (String × JValue)) : List String → Option JValue
  | [] => none
  | f :: rest => (manifestGet m f).bind (fun v => jvalueGetPath v rest)

/-- Modelled from the spec: the staged corrections are advisory, consumed by an
external applier.  A staged mutation whose payload equals the value already in
the snapshot changes nothing, so it does not count as a staged change; the
diagnostics never change anything. -/
def Effect.isEffective (snap : Snapshot) : Effect → Bool
  | .depUpdate c t i r =>
      (snap.dependencies.filter
        (fun d => d.workspaceCwd == c && d.depType == t && d.ident == i)).any
        (fun d => d.range != r)
  | .depDelete c t i =>
      snap.dependencies.any (fun d => d.workspaceCwd == c && d.depType == t && d.ident == i)
  | .depError _ _ _ _ => false
  | .wsSet c p v =>
      (snap.workspaces.filter (fun w => w.cwd == c)).any
        (fun w => !(jvalueOptEq (manifestGetPath w.manifest p) v))
  | .wsError _ _ => false

/-- The staged changes of a run: the staged effects that actually change the
snapshot when applied. -/
def stagedChanges (snap : Snapshot) (effects : List Effect) : List Effect :=
  effects.filter (Effect.isEffective snap)

/-- Overwrites (or appends) one field of a manifest object. -/
def setField (m : List (String × JValue)) (f : String) (v : JValue) :
    List (String × JValue) :=
  if m.any (fun p => p.1 == f) then m.map (fun p => if p.1 == f then (p.1, v) else p)
  else m ++ [(f, v)]

/-- Modelled from the spec: the external applier's `workspace.set` on a field
path, creating intermediate objects as needed. -/
def manifestSetPath : List String → List (String × JValue) → JValue →
    List (String × JValue)
  | [], m, _ => m
  | [f], m, x => setField m f x
  | f :: rest, m, x =>
      let current := match manifestGet m f with
        | some (JValue.obj fs) => fs
        | _ => []
      setField m f (JValue.obj (manifestSetPath rest current x))

/-- One applier step on a workspace's manifest: a staged field write addressed to
this workspace rewrites the manifest, every other effect leaves it alone. -/
def applyWsEffect (w : Workspace) (m : List (String × JValue)) : Effect → List (String × JValue)
  | Effect.wsSet c p v => if c == w.cwd then manifestSetPath p m v else m
  | _ => m

/-- The manifest a workspace ends up with after the staged effects are applied. -/
def stagedManifest (effects : List Effect) (w : Workspace) : List (String × JValue) :=
  effects.foldl (applyWsEffect w) w.manifest

/-- The `Path` child of the rendered SVG element. -/
structure SvgPathElement where
  d : String
  deriving Repr

/-- The `Svg` element rendered by the icon component: its attributes and its
`Path` children. -/
structure SvgElement where
  height : String
  viewBox : String
  width : String
  fill : String
  children : List SvgPathElement
  deriving Repr

/-- The fixed path data of the `SendMoney` icon. -/
def sendMoneyPathData : String :=
  "M240-170Q136-197 68-282T0-480q0-113 68-198t172-112v84q-71 24-115.5 86T80-480q0 78 44.5 140T240-254v84Zm320 10q-133 0-226.5-93.5T240-480q0-133 93.5-226.5T560-800q66 0 124 25t102 69l-56 56q-33-33-76.5-51.5T560-720q-100 0-170 70t-70 170q0 100 70 170t170 70q50 0 93.5-18.5T730-310l56 56q-44 44-102 69t-124 25Zm240-160-56-56 64-64H520v-80h288l-64-64 56-56 160 160-160 160Z"

/-- `SendMoney` from the icon component: a function of the `color` prop (whose
default value in the source is `"#5f6368"`) returning an `Svg` element filled
with that color and containing a single `Path` with the fixed path data. -/
def SendMoney (color : String) : SvgElement :=
  { height := "24px"
    viewBox := "0 -960 960 960"
    width := "24px"
    fill := color
    children := [{ d := sendMoneyPathData }] }

/-- Matches the diagnostic `validatePresenceOfRequiredFields` emits for one
workspace and one missing field. -/
def isMissingFieldError (w : Workspace) (f : String) : Effect → Bool
  | Effect.wsError c m => c == w.cwd && m == ("Missing required field: " ++ f)
  | _ => false

/-- The root workspace of the example snapshots. -/
def rootWorkspace : Workspace :=
  { cwd := ".", ident := none, manifest := [("private", JValue.bool true)] }

/-- Example enforced template fields: a scalar field and an object-valued field. -/
def c9Fields : List (String × JValue) :=
  [("license", JValue.str "MIT"), ("scripts", JValue.obj [("build", JValue.str "tsc")])]

/-- An already-corrected workspace: it carries the enforced license field and
the enforced keywords array (deep-equal to the template's, though a separately
parsed array is never reference-equal to it). -/
def c2Workspace : Workspace :=
  { cwd := "packages/app", ident := some "app"
    manifest := [("license", JValue.str "MIT"),
                 ("keywords", JValue.arr [JValue.str "app"])] }

/-- An already-corrected dependency: expo at the configured range. -/
def c2Dependency : Dependency :=
  { workspaceCwd := "packages/app", ident := "expo", range := "~50.0.0"
    depType := DependencyType.dependencies }

/-- An already-corrected snapshot. -/
def c2Snapshot : Snapshot :=
  { workspaces := [c2Workspace], dependencies := [c2Dependency] }

/-- The enforced template fields of the already-corrected example: a scalar
field and an array-valued field. -/
def c2Fields : List (String × JValue) :=
  [("license", JValue.str "MIT"), ("keywords", JValue.arr [JValue.str "app"])]

/-- First example workspace for the consistency rule. -/
def c3WorkspaceA : Workspace := { cwd := "packages/a", ident := some "a", manifest := [] }

/-- Second example workspace for the consistency rule. -/
def c3WorkspaceB : Workspace := { cwd := "packages/b", ident := some "b", manifest := [] }

/-- Third example workspace for the consistency rule. -/
def c3WorkspaceC : Workspace := { cwd := "packages/c", ident := some "c", manifest := [] }

/-- Dependency on x at 1.0.0, declared by the first workspace. -/
def c3DepA : Dependency :=
  { workspaceCwd := "packages/a", ident := "x", range := "1.0.0"
    depType := DependencyType.dependencies }

/-- Dependency on x at 2.0.0, declared by the second workspace. -/
def c3DepB : Dependency :=
  { workspaceCwd := "packages/b", ident := "x", range := "2.0.0"
    depType := DependencyType.dependencies }

/-- Dependency on x at 3.0.0, declared by the third workspace. -/
def c3DepC : Dependency :=
  { workspaceCwd := "packages/c", ident := "x", range := "3.0.0"
    depType := DependencyType.dependencies }

/-- A snapshot where three workspaces declare the same dependency at three
different ranges. -/
def c3Snapshot : Snapshot :=
  { workspaces := [c3WorkspaceA, c3WorkspaceB, c3WorkspaceC]
    dependencies := [c3DepA, c3DepB, c3DepC] }

/-- The workspace of the C5 example snapshot. -/
def c5Workspace : Workspace :=
  { cwd := "packages/app", ident := some "app", manifest := [("name", JValue.str "app")] }

/-- The `expo@49.0.0` dependency of the C5 example snapshot. -/
def c5Dependency : Dependency :=
  { workspaceCwd := "packages/app", ident := "expo", range := "49.0.0"
    depType := DependencyType.dependencies }

/-- A snapshot with a single workspace depending on `expo@49.0.0`. -/
def c5Snapshot : Snapshot :=
  { workspaces := [c5Workspace], dependencies := [c5Dependency] }

/-- A snapshot with the root workspace and one ordinary workspace. -/
def c10Snapshot : Snapshot :=
  { workspaces := [rootWorkspace, c5Workspace], dependencies := [] }

/-- C5: on a snapshot containing a dependency on expo with range 49.0.0 in one
workspace, the evaluation stages exactly one update, setting that dependency's
range to ~50.0.0, and the diagnostics list is empty: the wrong range is
corrected, not reported as an error. -/
theorem expo_snapshot_corrected_not_errored :
    constraintsPart000 c5Snapshot =
      [Effect.depUpdate "packages/app" DependencyType.dependencies "expo" "~50.0.0"] ∧
    stagedRange (constraintsPart000 c5Snapshot) c5Dependency = some "~50.0.0" ∧
    diagnostics (constraintsPart000 c5Snapshot) = [] :=
  ⟨rfl, rfl, rfl⟩

/-- C8: the icon component is a stateless function of its color prop: for every
color, `SendMoney` returns an Svg element whose fill is that color, whose single
Path child carries the fixed path data, and whose children do not depend on the
color at all. -/
theorem SendMoney_stateless_fixed_path (color other : String) :
    (SendMoney color).fill = color ∧
    (SendMoney color).children = [{ d := sendMoneyPathData }] ∧
    (SendMoney color).children = (SendMoney other).children :=
  ⟨rfl, rfl, rfl⟩

/-- Folding effects over a dependency splits along list append. -/
theorem stagedRangeAux_append (d : Dependency) (acc : Option String)
    (l1 l2 : List Effect) :
    stagedRangeAux d acc (l1 ++ l2) = stagedRangeAux d (stagedRangeAux d acc l1) l2 := by
  induction l1 generalizing acc with
  | nil => rfl
  | cons e rest ih =>
    cases e with
    | depUpdate c t i r => simp only [List.cons_append, stagedRangeAux]; exact ih _
    | depDelete c t i => simp only [List.cons_append, stagedRangeAux]; exact ih _
    | depError c t i m => simp only [List.cons_append, stagedRangeAux]; exact ih _
    | wsSet c p v => simp only [List.cons_append, stagedRangeAux]; exact ih _
    | wsError c m => simp only [List.cons_append, stagedRangeAux]; exact ih _

/-- Effects that do not touch a dependency leave its folded range unchanged. -/
theorem stagedRangeAux_no_touch (d : Dependency) (acc : Option String)
    (l : List Effect) (h : ∀ e ∈ l, e.touchesDep d = false) :
    stagedRangeAux d acc l = acc := by
  induction l generalizing acc with
  | nil => rfl
  | cons e rest ih =>
    have hrest : ∀ e' ∈ rest, e'.touchesDep d = false :=
      fun e' h1 => h e' (List.mem_cons_of_mem _ h1)
    have hhead := h e (List.mem_cons_self _ _)
    cases e with
    | depUpdate c t i r =>
      simp only [Effect.touchesDep] at hhead
      simp only [stagedRangeAux, hhead, if_false]
      exact ih _ hrest
    | depDelete c t i =>
      simp only [Effect.touchesDep] at hhead
      simp only [stagedRangeAux, hhead, if_false]
      exact ih _ hrest
    | depError c t i m => simp only [stagedRangeAux]; exact ih _ hrest
    | wsSet c p v => simp only [stagedRangeAux]; exact ih _ hrest
    | wsError c m => simp only [stagedRangeAux]; exact ih _ hrest

/-- If every effect touching a dependency leaves the same range payload, an
accumulator already equal to that payload is preserved. -/
theorem stagedRangeAux_stable (d : Dependency) (res : Option String)
    (l : List Effect)
    (hall : ∀ e ∈ l, e.touchesDep d = true → e.rangePayload = res) :
    stagedRangeAux d res l = res := by
  induction l with
  | nil => rfl
  | cons e rest ih =>
    have hrest : ∀ e' ∈ rest, e'.touchesDep d = true → e'.rangePayload = res :=
      fun e' h1 h2 => hall e' (List.mem_cons_of_mem _ h1) h2
    cases e with
    | depUpdate c t i r =>
      by_cases hc : (c == d.workspaceCwd && t == d.depType && i == d.ident) = true
      · have hp := hall _ (List.mem_cons_self _ _) (by simpa [Effect.touchesDep] using hc)
        simp only [Effect.rangePayload] at hp
        simp only [stagedRangeAux, hc, if_true]
        rw [hp]; exact ih hrest
      · simp only [stagedRangeAux, if_neg hc]; exact ih hrest
    | depDelete c t i =>
      by_cases hc : (c == d.workspaceCwd && t == d.depType && i == d.ident) = true
      · have hp := hall _ (List.mem_cons_self _ _) (by simpa [Effect.touchesDep] using hc)
        simp only [Effect.rangePayload] at hp
        simp only [stagedRangeAux, hc, if_true]
        rw [hp]; exact ih hrest
      · simp only [stagedRangeAux, if_neg hc]; exact ih hrest
    | depError c t i m => simp only [stagedRangeAux]; exact ih hrest
    | wsSet c p v => simp only [stagedRangeAux]; exact ih hrest
    | wsError c m => simp only [stagedRangeAux]; exact ih hrest

/-- If every effect touching a dependency leaves the same range payload and at
least one effect touches it, the fold ends at that payload whatever the
accumulator. -/
theorem stagedRangeAux_result (d : Dependency) (res : Option String)
    (l : List Effect)
    (hall : ∀ e ∈ l, e.touchesDep d = true → e.rangePayload = res)
    (hex : ∃ e ∈ l, e.touchesDep d = true) (acc : Option String) :
    stagedRangeAux d acc l = res := by
  induction l generalizing acc with
  | nil => simp at hex
  | cons e rest ih =>
    have hrest : ∀ e' ∈ rest, e'.touchesDep d = true → e'.rangePayload = res :=
      fun e' h1 h2 => hall e' (List.mem_cons_of_mem _ h1) h2
    by_cases hr : ∃ e' ∈ rest, e'.touchesDep d = true
    · cases e with
      | depUpdate c t i r => simp only [stagedRangeAux]; exact ih hrest hr _
      | depDelete c t i => simp only [stagedRangeAux]; exact ih hrest hr _
      | depError c t i m => simp only [stagedRangeAux]; exact ih hrest hr _
      | wsSet c p v => simp only [stagedRangeAux]; exact ih hrest hr _
      | wsError c m => simp only [stagedRangeAux]; exact ih hrest hr _
    · have hhead : e.touchesDep d = true := by
        rcases hex with ⟨e', he', ht⟩
        rcases List.mem_cons.mp he' with h | h
        · rw [← h]; exact ht
        · exact absurd ⟨e', h, ht⟩ hr
      have hnorest : ∀ e' ∈ rest, e'.touchesDep d = false := by
        intro e' h1
        by_contra hne
        exact hr ⟨e', h1, by simpa using hne⟩
      have hp := hall e (List.mem_cons_self _ _) hhead
      cases e with
      | depUpdate c t i r =>
        simp only [Effect.touchesDep] at hhead
        simp only [Effect.rangePayload] at hp
        simp only [stagedRangeAux, hhead, if_true]
        rw [stagedRangeAux_no_touch d _ rest hnorest]; exact hp
      | depDelete c t i =>
        simp only [Effect.touchesDep] at hhead
        simp only [Effect.rangePayload] at hp
        simp only [stagedRangeAux, hhead, if_true]
        rw [stagedRangeAux_no_touch d _ rest hnorest]; exact hp
      | depError c t i m => simp [Effect.touchesDep] at hhead
      | wsSet c p v => simp [Effect.touchesDep] at hhead
      | wsError c m => simp [Effect.touchesDep] at hhead

/-- `enforceFieldsFromCustomPackage` only stages manifest field writes, so it
never touches a dependency entry. -/
theorem enforceFields_no_touch (snap : Snapshot) (fields : List (String × JValue))
    (d : Dependency) :
    ∀ e ∈ enforceFieldsFromCustomPackage snap fields, e.touchesDep d = false := by
  intro e he
  simp only [enforceFieldsFromCustomPackage, List.mem_flatMap] at he
  obtain ⟨w, _, he⟩ := he
  split at he
  · simp at he
  · simp only [enforceFieldsForWorkspace, List.mem_flatMap] at he
    obtain ⟨fv, _, he⟩ := he
    obtain ⟨f, v⟩ := fv
    cases v with
    | obj subs =>
      simp only [enforceFieldEffects, List.mem_flatMap] at he
      obtain ⟨sv, _, he⟩ := he
      split at he
      · simp at he
      · simp only [List.mem_singleton] at he
        rw [he]; rfl
    | null =>
      simp only [enforceFieldEffects] at he
      split at he
      · simp at he
      · simp only [List.mem_singleton] at he; rw [he]; rfl
    | bool b =>
      simp only [enforceFieldEffects] at he
      split at he
      · simp at he
      · simp only [List.mem_singleton] at he; rw [he]; rfl
    | num n =>
      simp only [enforceFieldEffects] at he
      split at he
      · simp at he
      · simp only [List.mem_singleton] at he; rw [he]; rfl
    | str s =>
      simp only [enforceFieldEffects] at he
      split at he
      · simp at he
      · simp only [List.mem_singleton] at he; rw [he]; rfl
    | arr xs =>
      simp only [enforceFieldEffects] at he
      split at he
      · simp at he
      · simp only [List.mem_singleton] at he; rw [he]; rfl

/-- C1: for every dependency whose identifier appears in the configured
allowed-ranges map (expo to ~50.0.0), after running the evaluator the staged
range of that dependency equals the configured range, regardless of the
dependency's original range. -/
theorem allowedRanges_staged_range_eq_configured
    (snap : Snapshot) (fields : List (String × JValue)) (d : Dependency)
    (ident range : String) (hpr : (ident, range) ∈ allowedRanges)
    (hd : d ∈ snap.dependencies) (hi : d.ident = ident) :
    stagedRange (runEvaluator snap fields) d = some range := by
  simp only [allowedRanges, List.mem_singleton, Prod.mk.injEq] at hpr
  obtain ⟨hid, hrg⟩ := hpr
  subst hid; subst hrg
  have hlist : constraintsPart000 snap =
      (snap.dependenciesByIdent "expo").map
        (fun d' => Effect.depUpdate d'.workspaceCwd d'.depType d'.ident "~50.0.0") := by
    simp [constraintsPart000, enforceDependencyRanges, allowedRanges]
  have hall : ∀ e ∈ constraintsPart000 snap,
      e.touchesDep d = true → e.rangePayload = some "~50.0.0" := by
    intro e he _
    rw [hlist] at he
    simp only [List.mem_map] at he
    obtain ⟨d', _, he⟩ := he
    rw [← he]; rfl
  have hex : ∃ e ∈ constraintsPart000 snap, e.touchesDep d = true := by
    refine ⟨Effect.depUpdate d.workspaceCwd d.depType d.ident "~50.0.0", ?_, ?_⟩
    · rw [hlist]
      exact List.mem_map_of_mem _
        (by simp [Snapshot.dependenciesByIdent, List.mem_filter, hd, hi])
    · simp [Effect.touchesDep]
  rw [stagedRange, runEvaluator, stagedRangeAux_append]
  exact stagedRangeAux_result d (some "~50.0.0") _ hall hex _

/-- Closed instance of C1: at the example snapshot, the expo dependency's staged
range after evaluation is the configured ~50.0.0. -/
theorem allowedRanges_staged_range_eq_configured_witness :
    ("expo", "~50.0.0") ∈ allowedRanges ∧
    c5Dependency ∈ c5Snapshot.dependencies ∧
    c5Dependency.ident = "expo" ∧
    stagedRange (runEvaluator c5Snapshot []) c5Dependency = some "~50.0.0" := by
  have h1 : ("expo", "~50.0.0") ∈ allowedRanges := by decide
  have h2 : c5Dependency ∈ c5Snapshot.dependencies := by decide
  have h3 : c5Dependency.ident = "expo" := rfl
  exact ⟨h1, h2, h3,
    allowedRanges_staged_range_eq_configured c5Snapshot [] c5Dependency
      "expo" "~50.0.0" h1 h2 h3⟩

/-- C7: the forbidden-dependency rule stages a deletion of every dependency
whose identifier is in the forbidden list (so its staged state is removal), and
touches no dependency whose identifier is outside the list (its staged range is
its original range). -/
theorem forbidDependencies_deletes_exactly_forbidden
    (snap : Snapshot) (d : Dependency) (hd : d ∈ snap.dependencies) :
    (d.ident ∈ forbiddenDependencies →
      Effect.depDelete d.workspaceCwd d.depType d.ident ∈
        forbidDependencies snap forbiddenDependencies ∧
      stagedRange (forbidDependencies snap forbiddenDependencies) d = none) ∧
    (d.ident ∉ forbiddenDependencies →
      (∀ e ∈ forbidDependencies snap forbiddenDependencies, e.touchesDep d = false) ∧
      stagedRange (forbidDependencies snap forbiddenDependencies) d = some d.range) := by
  constructor
  · intro hin
    have hmem : Effect.depDelete d.workspaceCwd d.depType d.ident ∈
        forbidDependencies snap forbiddenDependencies := by
      simp only [forbidDependencies, List.mem_flatMap]
      exact ⟨d.ident, hin,
        List.mem_map_of_mem _
          (by simp [Snapshot.dependenciesByIdent, List.mem_filter, hd])⟩
    refine ⟨hmem, ?_⟩
    have hall : ∀ e ∈ forbidDependencies snap forbiddenDependencies,
        e.touchesDep d = true → e.rangePayload = none := by
      intro e he _
      simp only [forbidDependencies, List.mem_flatMap] at he
      obtain ⟨i, _, he⟩ := he
      simp only [List.mem_map] at he
      obtain ⟨d', _, he⟩ := he
      rw [← he]; rfl
    exact stagedRangeAux_result d none _ hall
      ⟨_, hmem, by simp [Effect.touchesDep]⟩ _
  · intro hout
    have hnone : ∀ e ∈ forbidDependencies snap forbiddenDependencies,
        e.touchesDep d = false := by
      intro e he
      simp only [forbidDependencies, List.mem_flatMap] at he
      obtain ⟨i, hi, he⟩ := he
      simp only [List.mem_map] at he
      obtain ⟨d', hd', he⟩ := he
      simp only [Snapshot.dependenciesByIdent, List.mem_filter] at hd'
      have hdi : d'.ident = i := by simpa using hd'.2
      rw [← he]
      simp only [Effect.touchesDep]
      cases hb : (d'.workspaceCwd == d.workspaceCwd && d'.depType == d.depType &&
          d'.ident == d.ident) with
      | false => rfl
      | true =>
        exfalso
        simp only [Bool.and_eq_true, beq_iff_eq] at hb
        have hdeq : d.ident = i := by rw [← hb.2, hdi]
        exact hout (by rw [hdeq]; exact hi)
    exact ⟨hnone, stagedRangeAux_no_touch d _ _ hnone⟩

/-- Closed instance of C7: at a snapshot with a forbidden and an ordinary
dependency, the forbidden one is deleted and the ordinary one untouched. -/
theorem forbidDependencies_deletes_exactly_forbidden_witness :
    c5Dependency ∈ c5Snapshot.dependencies ∧
    (c5Dependency.ident ∉ forbiddenDependencies →
      stagedRange (forbidDependencies c5Snapshot forbiddenDependencies) c5Dependency =
        some c5Dependency.range) := by
  have h1 : c5Dependency ∈ c5Snapshot.dependencies := by decide
  exact ⟨h1, fun hout =>
    ((forbidDependencies_deletes_exactly_forbidden c5Snapshot c5Dependency h1).2 hout).2⟩

/-- Every effect staged by `enforceFieldEffects` is a field write on the
workspace, of one of the two shapes of the rule, and only when the current value
differs from the enforced one under strict equality. -/
theorem mem_enforceFieldEffects_shape (w : Workspace) (f' : String) (v' : JValue)
    (e : Effect) (he : e ∈ enforceFieldEffects w f' v') :
    (∃ subs, v' = JValue.obj subs ∧ ∃ sv, sv ∈ subs ∧
        e = Effect.wsSet w.cwd [f', sv.1] sv.2 ∧
        jsStrictEqOpt ((manifestGet w.manifest f').bind (fun x => jvalueGet x sv.1))
          sv.2 = false) ∨
    ((∀ subs, v' ≠ JValue.obj subs) ∧ e = Effect.wsSet w.cwd [f'] v' ∧
        jsStrictEqOpt (manifestGet w.manifest f') v' = false) := by
  cases v'
  case obj subs =>
    simp only [enforceFieldEffects, List.mem_flatMap] at he
    obtain ⟨sv, hsv, he⟩ := he
    split at he
    · exact absurd he (List.not_mem_nil _)
    · rename_i hguard
      rw [List.mem_singleton] at he
      exact Or.inl ⟨subs, rfl, sv, hsv, he, by simpa using hguard⟩
  all_goals
    simp only [enforceFieldEffects] at he
    split at he
    · exact absurd he (List.not_mem_nil _)
    · rename_i hguard
      rw [List.mem_singleton] at he
      exact Or.inr ⟨fun subs h => JValue.noConfusion h, he, by simpa using hguard⟩

/-- A fold of the applier over effects that all address other workspaces leaves
the manifest unchanged. -/
theorem foldl_applyWsEffect_id (w : Workspace) (effects : List Effect)
    (m : List (String × JValue))
    (h : ∀ e ∈ effects, (e.cwd == w.cwd) = false) :
    effects.foldl (applyWsEffect w) m = m := by
  induction effects generalizing m with
  | nil => rfl
  | cons e rest ih =>
    have hrest : ∀ e' ∈ rest, (e'.cwd == w.cwd) = false :=
      fun e' h1 => h e' (List.mem_cons_of_mem _ h1)
    have hhead := h e (List.mem_cons_self _ _)
    cases e with
    | wsSet c p v =>
      simp only [Effect.cwd] at hhead
      simp only [List.foldl_cons, applyWsEffect, hhead, if_false]
      exact ih _ hrest
    | depUpdate c t i r => simp only [List.foldl_cons, applyWsEffect]; exact ih _ hrest
    | depDelete c t i => simp only [List.foldl_cons, applyWsEffect]; exact ih _ hrest
    | depError c t i msg => simp only [List.foldl_cons, applyWsEffect]; exact ih _ hrest
    | wsError c msg => simp only [List.foldl_cons, applyWsEffect]; exact ih _ hrest

/-- Every effect of `enforceFieldsFromCustomPackage` is addressed to a non-root
workspace. -/
theorem enforceFields_cwd_not_root (snap : Snapshot) (fields : List (String × JValue)) :
    ∀ e ∈ enforceFieldsFromCustomPackage snap fields, (e.cwd == ".") = false := by
  intro e he
  simp only [enforceFieldsFromCustomPackage, List.mem_flatMap] at he
  obtain ⟨w', hw', he⟩ := he
  split at he
  · exact absurd he (List.not_mem_nil _)
  · rename_i hroot
    simp only [enforceFieldsForWorkspace, List.mem_flatMap] at he
    obtain ⟨fv, _, he⟩ := he
    have hne : (w'.cwd == ".") = false := by simpa using hroot
    rcases mem_enforceFieldEffects_shape w' fv.1 fv.2 e he with
      ⟨subs, _, sv, _, hE, _⟩ | ⟨_, hE, _⟩
    · rw [hE]; exact hne
    · rw [hE]; exact hne

/-- C10: `enforceFieldsFromCustomPackage` never stages anything for the root
workspace: no staged effect is addressed to cwd ".", and applying the staged
effects leaves the manifest of a workspace at cwd "." entirely unchanged, for
every fields configuration and every snapshot. -/
theorem enforceFields_skips_root_workspace (snap : Snapshot)
    (fields : List (String × JValue)) :
    (enforceFieldsFromCustomPackage snap fields).filter (fun e => e.cwd == ".") = [] ∧
    ∀ w : Workspace, w.cwd = "." →
      stagedManifest (enforceFieldsFromCustomPackage snap fields) w = w.manifest := by
  constructor
  · rw [List.filter_eq_nil_iff]
    intro e he
    simp [enforceFields_cwd_not_root snap fields e he]
  · intro w hwcwd
    apply foldl_applyWsEffect_id
    intro e he
    rw [hwcwd]
    exact enforceFields_cwd_not_root snap fields e he

/-- Closed instance of C10: on a snapshot holding the root workspace and a
workspace missing the enforced field, the rule stages nothing for the root and
its manifest survives the run unchanged. -/
theorem enforceFields_skips_root_workspace_witness :
    (enforceFieldsFromCustomPackage c10Snapshot c9Fields).filter
      (fun e => e.cwd == ".") = [] ∧
    stagedManifest (enforceFieldsFromCustomPackage c10Snapshot c9Fields) rootWorkspace =
      rootWorkspace.manifest :=
  ⟨(enforceFields_skips_root_workspace c10Snapshot c9Fields).1,
    (enforceFields_skips_root_workspace c10Snapshot c9Fields).2 rootWorkspace rfl⟩

/-- String concatenation is left-cancellative. -/
theorem string_append_left_cancel {s a b : String} (h : s ++ a = s ++ b) : a = b := by
  have hd := congrArg String.data h
  simp only [String.data_append] at hd
  exact String.ext (List.append_cancel_left hd)

/-- Diagnostics emitted for workspaces at other paths never match the
missing-field matcher of a given workspace. -/
theorem countP_missing_ws_zero (w : Workspace) (f : String) (ws : List Workspace)
    (fl : List String) (hne : ∀ w' ∈ ws, w'.cwd ≠ w.cwd) :
    (ws.flatMap (fun w' => fl.flatMap (fun g =>
      if (w'.manifest.map Prod.fst).contains g then []
      else [Effect.wsError w'.cwd ("Missing required field: " ++ g)]))).countP
      (isMissingFieldError w f) = 0 := by
  rw [List.countP_eq_zero]
  intro e he
  simp only [List.mem_flatMap] at he
  obtain ⟨w', hw', g, hg, he⟩ := he
  split at he
  · exact absurd he (List.not_mem_nil _)
  · rw [List.mem_singleton] at he
    rw [he]
    simp only [isMissingFieldError]
    intro hcon
    simp only [Bool.and_eq_true, beq_iff_eq] at hcon
    exact hne w' hw' hcon.1

/-- Count of matching missing-field diagnostics in the block a single workspace
produces: one if the field is required and absent, zero otherwise. -/
theorem countP_missing_block (w : Workspace) (f : String) (fl : List String)
    (hnd : fl.Nodup) :
    (fl.flatMap (fun g =>
      if (w.manifest.map Prod.fst).contains g then []
      else [Effect.wsError w.cwd ("Missing required field: " ++ g)])).countP
        (isMissingFieldError w f)
    = if f ∈ fl ∧ ¬(w.manifest.map Prod.fst).contains f then 1 else 0 := by
  induction fl with
  | nil => simp
  | cons g rest ih =>
    rw [List.nodup_cons] at hnd
    rw [List.flatMap_cons, List.countP_append, ih hnd.2]
    by_cases hfg : f = g
    · subst hfg
      have hnmem : ¬(f ∈ rest ∧ ¬(w.manifest.map Prod.fst).contains f) :=
        fun hcon => hnd.1 hcon.1
      rw [if_neg hnmem]
      by_cases hc : ((w.manifest.map Prod.fst).contains f) = true
      · rw [if_pos hc, if_neg (fun hcon => hcon.2 hc), List.countP_nil]
      · rw [if_neg hc, if_pos ⟨List.mem_cons_self _ _, hc⟩]
        simp only [List.countP_cons, List.countP_nil, isMissingFieldError]
        simp
    · have hhead : (if (w.manifest.map Prod.fst).contains g then ([] : List Effect)
          else [Effect.wsError w.cwd ("Missing required field: " ++ g)]).countP
          (isMissingFieldError w f) = 0 := by
        rw [List.countP_eq_zero]
        intro e he
        split at he
        · exact absurd he (List.not_mem_nil _)
        · rw [List.mem_singleton] at he
          rw [he]
          simp only [isMissingFieldError]
          intro hcon
          simp only [Bool.and_eq_true, beq_iff_eq] at hcon
          exact hfg (string_append_left_cancel hcon.2).symm
      rw [hhead, Nat.zero_add]
      have hmemiff : (f ∈ g :: rest ∧ ¬(w.manifest.map Prod.fst).contains f) ↔
          (f ∈ rest ∧ ¬(w.manifest.map Prod.fst).contains f) := by
        constructor
        · rintro ⟨hm, hcf⟩
          rcases List.mem_cons.mp hm with h | h
          · exact absurd h hfg
          · exact ⟨h, hcf⟩
        · rintro ⟨hm, hcf⟩
          exact ⟨List.mem_cons_of_mem _ hm, hcf⟩
      by_cases hcond : f ∈ rest ∧ ¬(w.manifest.map Prod.fst).contains f
      · rw [if_pos hcond, if_pos (hmemiff.mpr hcond)]
      · rw [if_neg hcond, if_neg (fun hcon => hcond (hmemiff.mp hcon))]

/-- C6: for every workspace and every required field, if the field is absent
from the workspace's manifest the rule emits exactly one diagnostic naming that
field for that workspace, and none when the field is present. -/
theorem missing_required_field_one_diagnostic (snap : Snapshot) (w : Workspace)
    (f : String) (hw : w ∈ snap.workspaces)
    (hpair : snap.workspaces.Pairwise (fun a b => a.cwd ≠ b.cwd))
    (hf : f ∈ requiredWorkspacesFields) :
    (validatePresenceOfRequiredFields snap requiredWorkspacesFields).countP
      (isMissingFieldError w f) =
    if (w.manifest.map Prod.fst).contains f then 0 else 1 := by
  have hnd : requiredWorkspacesFields.Nodup := by decide
  have main : ∀ ws : List Workspace, w ∈ ws →
      ws.Pairwise (fun a b => a.cwd ≠ b.cwd) →
      (ws.flatMap (fun w' => requiredWorkspacesFields.flatMap (fun g =>
        if (w'.manifest.map Prod.fst).contains g then []
        else [Effect.wsError w'.cwd ("Missing required field: " ++ g)]))).countP
        (isMissingFieldError w f) =
      if (w.manifest.map Prod.fst).contains f then 0 else 1 := by
    intro ws
    induction ws with
    | nil => intro hmem _; exact absurd hmem (List.not_mem_nil _)
    | cons w' rest ih =>
      intro hmem hpw
      rw [List.flatMap_cons, List.countP_append]
      rw [List.pairwise_cons] at hpw
      rcases List.mem_cons.mp hmem with heq | hmem'
      · subst heq
        have hrest : (rest.flatMap (fun w'' => requiredWorkspacesFields.flatMap (fun g =>
            if (w''.manifest.map Prod.fst).contains g then []
            else [Effect.wsError w''.cwd ("Missing required field: " ++ g)]))).countP
            (isMissingFieldError w f) = 0 :=
          countP_missing_ws_zero w f rest requiredWorkspacesFields
            (fun w'' h => (hpw.1 w'' h).symm)
        rw [hrest, countP_missing_block w f requiredWorkspacesFields hnd, Nat.add_zero]
        by_cases hc : ((w.manifest.map Prod.fst).contains f) = true
        · rw [if_pos hc, if_neg (fun hcon => hcon.2 hc)]
        · rw [if_neg hc, if_pos ⟨hf, hc⟩]
      · have hhead : (requiredWorkspacesFields.flatMap (fun g =>
            if (w'.manifest.map Prod.fst).contains g then []
            else [Effect.wsError w'.cwd ("Missing required field: " ++ g)])).countP
            (isMissingFieldError w f) = 0 := by
          have := countP_missing_ws_zero w f [w'] requiredWorkspacesFields
            (fun w'' h => by
              rw [List.mem_singleton] at h
              rw [h]
              exact hpw.1 w hmem')
          simpa using this
        rw [hhead, Nat.zero_add]
        exact ih hmem' hpw.2
  simp only [validatePresenceOfRequiredFields]
  exact main snap.workspaces hw hpair

/-- Closed instance of C6: the example workspace lacks the required author
field, and the rule emits exactly one diagnostic naming it. -/
theorem missing_required_field_one_diagnostic_witness :
    c5Workspace ∈ c5Snapshot.workspaces ∧
    "author" ∈ requiredWorkspacesFields ∧
    (validatePresenceOfRequiredFields c5Snapshot requiredWorkspacesFields).countP
      (isMissingFieldError c5Workspace "author") = 1 := by
  have hw : c5Workspace ∈ c5Snapshot.workspaces := List.mem_singleton.mpr rfl
  have hpair : c5Snapshot.workspaces.Pairwise (fun a b => a.cwd ≠ b.cwd) := by
    exact List.pairwise_singleton _ _
  have hf : "author" ∈ requiredWorkspacesFields := by decide
  have h := missing_required_field_one_diagnostic c5Snapshot c5Workspace "author"
    hw hpair hf
  exact ⟨hw, hf, by rw [h]; rfl⟩

/-- Membership in the output of `enforceFieldsFromCustomPackage`: an effect is
staged exactly when some non-root workspace and some template entry produce it. -/
theorem mem_enforceFields_iff (snap : Snapshot) (fields : List (String × JValue))
    (e : Effect) :
    e ∈ enforceFieldsFromCustomPackage snap fields ↔
    ∃ w ∈ snap.workspaces, (w.cwd == ".") = false ∧
      ∃ fv ∈ fields, e ∈ enforceFieldEffects w fv.1 fv.2 := by
  constructor
  · intro he
    simp only [enforceFieldsFromCustomPackage, List.mem_flatMap] at he
    obtain ⟨w, hw, he⟩ := he
    split at he
    · exact absurd he (List.not_mem_nil _)
    · rename_i hroot
      simp only [enforceFieldsForWorkspace, List.mem_flatMap] at he
      obtain ⟨fv, hfv, he⟩ := he
      exact ⟨w, hw, by simpa using hroot, fv, hfv, he⟩
  · rintro ⟨w, hw, hroot, fv, hfv, he⟩
    simp only [enforceFieldsFromCustomPackage, List.mem_flatMap]
    refine ⟨w, hw, ?_⟩
    rw [if_neg (by simp [hroot])]
    simp only [enforceFieldsForWorkspace, List.mem_flatMap]
    exact ⟨fv, hfv, he⟩

/-- In a field list with no duplicate keys, a key determines its value. -/
theorem nodup_keys_value_unique {l : List (String × JValue)}
    (hnd : (l.map Prod.fst).Nodup) {f : String} {a b : JValue}
    (ha : (f, a) ∈ l) (hb : (f, b) ∈ l) : a = b := by
  induction l with
  | nil => exact absurd ha (List.not_mem_nil _)
  | cons p rest ih =>
    rw [List.map_cons, List.nodup_cons] at hnd
    rcases List.mem_cons.mp ha with rfl | ha'
    · rcases List.mem_cons.mp hb with hb' | hb'
      · exact ((Prod.mk.injEq _ _ _ _).mp hb'.symm).2
      · exact absurd (by simpa using List.mem_map_of_mem Prod.fst hb') hnd.1
    · rcases List.mem_cons.mp hb with rfl | hb'
      · exact absurd (by simpa using List.mem_map_of_mem Prod.fst ha') hnd.1
      · exact ih hnd.2 ha' hb'

/-- A differing scalar field is staged for the workspace. -/
theorem scalar_effect_mem (w : Workspace) (f : String) (v : JValue)
    (hobj : ∀ subs, v ≠ JValue.obj subs)
    (hdiff : jsStrictEqOpt (manifestGet w.manifest f) v = false) :
    Effect.wsSet w.cwd [f] v ∈ enforceFieldEffects w f v := by
  cases v
  case obj subs => exact absurd rfl (hobj subs)
  all_goals simp [enforceFieldEffects, hdiff]

/-- A differing listed sub-field of an object-valued template field is staged. -/
theorem obj_effect_mem (w : Workspace) (f : String) (subs : List (String × JValue))
    (sf : String) (sv : JValue) (hsv : (sf, sv) ∈ subs)
    (hdiff : jsStrictEqOpt ((manifestGet w.manifest f).bind (fun x => jvalueGet x sf))
      sv = false) :
    Effect.wsSet w.cwd [f, sf] sv ∈ enforceFieldEffects w f (JValue.obj subs) := by
  simp only [enforceFieldEffects, List.mem_flatMap]
  refine ⟨(sf, sv), hsv, ?_⟩
  rw [if_neg (by simp [hdiff])]
  exact List.mem_singleton.mpr rfl

/-- C9: for a non-root workspace, `enforceFieldsFromCustomPackage` stages a
field correction exactly when the current manifest value differs from the
enforced value: a non-object template field is set as a whole iff the manifest
value strictly differs, and for an object-valued template field exactly the
listed sub-fields whose current value strictly differs are set, every staged
write under that field naming a listed sub-field. -/
theorem enforceFields_stages_iff_value_differs
    (snap : Snapshot) (fields : List (String × JValue)) (w : Workspace)
    (f : String) (v : JValue)
    (hw : w ∈ snap.workspaces) (hroot : (w.cwd == ".") = false)
    (hpair : snap.workspaces.Pairwise (fun a b => a.cwd ≠ b.cwd))
    (hnd : (fields.map Prod.fst).Nodup)
    (hfv : (f, v) ∈ fields) :
    ((∀ subs, v ≠ JValue.obj subs) →
      (Effect.wsSet w.cwd [f] v ∈ enforceFieldsFromCustomPackage snap fields ↔
        jsStrictEqOpt (manifestGet w.manifest f) v = false)) ∧
    (∀ subs, v = JValue.obj subs →
      (∀ sf sv, (sf, sv) ∈ subs →
        (Effect.wsSet w.cwd [f, sf] sv ∈ enforceFieldsFromCustomPackage snap fields ↔
          jsStrictEqOpt ((manifestGet w.manifest f).bind (fun x => jvalueGet x sf))
            sv = false)) ∧
      (∀ p val, Effect.wsSet w.cwd p val ∈ enforceFieldsFromCustomPackage snap fields →
        p.head? = some f → ∃ sf sv, p = [f, sf] ∧ (sf, sv) ∈ subs ∧ val = sv)) := by
  have hsym : Symmetric (fun a b : Workspace => a.cwd ≠ b.cwd) :=
    fun _ _ h hh => h hh.symm
  have hwu : ∀ w' ∈ snap.workspaces, w'.cwd = w.cwd → w' = w := by
    intro w' hw' hcwd
    by_contra hne
    exact (List.Pairwise.forall hsym hpair) hw' hw hne hcwd
  constructor
  · intro hobj
    constructor
    · intro he
      rcases (mem_enforceFields_iff snap fields _).mp he with
        ⟨w', hw', hroot', fv', hfv', he'⟩
      rcases mem_enforceFieldEffects_shape w' fv'.1 fv'.2 _ he' with
        ⟨subs', hv', sv', hsv', hE, hdiff'⟩ | ⟨hnobj, hE, hdiff'⟩
      · injection hE with h1 h2 h3
        injection h2 with h2a h2b
        exact absurd h2b (by simp)
      · injection hE with h1 h2 h3
        injection h2 with h2a h2b
        have hw'' : w' = w := hwu w' hw' h1.symm
        rw [hw''] at hdiff'
        rw [← h2a, ← h3] at hdiff'
        exact hdiff'
    · intro hdiff
      exact (mem_enforceFields_iff snap fields _).mpr
        ⟨w, hw, hroot, (f, v), hfv, scalar_effect_mem w f v hobj hdiff⟩
  · intro subs hv
    subst hv
    constructor
    · intro sf sv hsv
      constructor
      · intro he
        rcases (mem_enforceFields_iff snap fields _).mp he with
          ⟨w', hw', hroot', fv', hfv', he'⟩
        rcases mem_enforceFieldEffects_shape w' fv'.1 fv'.2 _ he' with
          ⟨subs', hv', sv', hsv', hE, hdiff'⟩ | ⟨hnobj, hE, hdiff'⟩
        · injection hE with h1 h2 h3
          injection h2 with h2a h2tl
          injection h2tl with h2b h2c
          have hw'' : w' = w := hwu w' hw' h1.symm
          rw [hw''] at hdiff'
          rw [← h2a, ← h2b, ← h3] at hdiff'
          exact hdiff'
        · injection hE with h1 h2 h3
          injection h2 with h2a h2b
          exact absurd h2b (by simp)
      · intro hdiff
        exact (mem_enforceFields_iff snap fields _).mpr
          ⟨w, hw, hroot, (f, JValue.obj subs), hfv,
            obj_effect_mem w f subs sf sv hsv hdiff⟩
    · intro p val he hhead
      rcases (mem_enforceFields_iff snap fields _).mp he with
        ⟨w', hw', hroot', fv', hfv', he'⟩
      rcases mem_enforceFieldEffects_shape w' fv'.1 fv'.2 _ he' with
        ⟨subs', hv', sv', hsv', hE, hdiff'⟩ | ⟨hnobj, hE, hdiff'⟩
      · injection hE with h1 h2 h3
        have hf1 : fv'.1 = f := by
          rw [h2] at hhead
          simpa using hhead
        have hfv'' : (f, JValue.obj subs') ∈ fields := by
          rw [← hf1, ← hv']
          exact hfv'
        have hsubs' : subs' = subs := by
          have hou := nodup_keys_value_unique hnd hfv'' hfv
          injection hou
        refine ⟨sv'.1, sv'.2, ?_, ?_, h3⟩
        · rw [h2, hf1]
        · rw [← hsubs']
          exact hsv'
      · injection hE with h1 h2 h3
        have hf1 : fv'.1 = f := by
          rw [h2] at hhead
          simpa using hhead
        have hfv'' : (f, fv'.2) ∈ fields := by
          rw [← hf1]
          exact hfv'
        have heq : fv'.2 = JValue.obj subs :=
          nodup_keys_value_unique hnd hfv'' hfv
        exact absurd heq (hnobj subs)

/-- Closed instance of C9: on the example snapshot the differing scalar license
field is staged for the non-root workspace. -/
theorem enforceFields_stages_iff_value_differs_witness :
    ("license", JValue.str "MIT") ∈ c9Fields ∧
    jsStrictEqOpt (manifestGet c5Workspace.manifest "license") (JValue.str "MIT")
      = false ∧
    Effect.wsSet "packages/app" ["license"] (JValue.str "MIT") ∈
      enforceFieldsFromCustomPackage c5Snapshot c9Fields := by
  have hw : c5Workspace ∈ c5Snapshot.workspaces := List.mem_singleton.mpr rfl
  have hpair : c5Snapshot.workspaces.Pairwise (fun a b => a.cwd ≠ b.cwd) :=
    List.pairwise_singleton _ _
  have hnd : (c9Fields.map Prod.fst).Nodup := by decide
  have hfv : ("license", JValue.str "MIT") ∈ c9Fields := List.mem_cons_self _ _
  have h := enforceFields_stages_iff_value_differs c5Snapshot c9Fields c5Workspace
    "license" (JValue.str "MIT") hw rfl hpair hnd hfv
  refine ⟨hfv, rfl, ?_⟩
  exact (h.1 (fun subs hh => JValue.noConfusion hh)).mpr rfl

/-- C3 counterexample: in a snapshot where three workspaces declare x at 1.0.0,
2.0.0 and 3.0.0, the first encountered dependency matching the first workspace's
x is itself (x@1.0.0), and the first encountered other one is x@2.0.0; yet the
rule leaves the staged range at 3.0.0, the last encountered matching range, so
the staged range does not equal the first encountered matching range under
either reading. -/
theorem consistent_rule_first_encountered_counterexample :
    (consistentMatching c3Snapshot c3DepA).head? = some c3DepA ∧
    ((consistentMatching c3Snapshot c3DepA).drop 1).head? = some c3DepB ∧
    stagedRange (enforceConsistentDependenciesAcrossTheProject c3Snapshot) c3DepA =
      some "3.0.0" ∧
    some "3.0.0" ≠ some c3DepA.range ∧
    some "3.0.0" ≠ some c3DepB.range := by
  refine ⟨rfl, rfl, rfl, ?_, ?_⟩ <;> decide

/-- Every effect of a consistency-rule block is an update keyed to the block's
dependency. -/
theorem mem_consistentBlock (snap : Snapshot) (d' : Dependency) :
    ∀ e ∈ consistentBlock snap d',
      ∃ r, e = Effect.depUpdate d'.workspaceCwd d'.depType d'.ident r := by
  intro e he
  simp only [consistentBlock] at he
  split at he
  · exact absurd he (List.not_mem_nil _)
  · split at he
    · exact absurd he (List.not_mem_nil _)
    · rw [List.mem_flatMap] at he
      obtain ⟨o, ho, he⟩ := he
      split at he
      · exact absurd he (List.not_mem_nil _)
      · split at he
        · exact absurd he (List.not_mem_nil _)
        · split at he
          · exact absurd he (List.not_mem_nil _)
          · rw [List.mem_singleton] at he
            exact ⟨o.range, he⟩

/-- The inner loop of the consistency rule, on identifiers that name no
workspace of the project, stages one update per non-ignored non-peer matching
dependency, in encounter order. -/
theorem consistentBlock_inner_eq (snap : Snapshot) (d : Dependency)
    (hws : snap.workspaceByIdent d.ident = none) (l : List Dependency)
    (hl : ∀ o ∈ l, o.ident = d.ident) :
    (l.flatMap (fun other =>
      if IGNORE_CONSISTENT_DEPENDENCIES_FOR.contains other.workspaceCwd then []
      else if other.depType == DependencyType.peerDependencies then []
      else if (d.depType == DependencyType.devDependencies
                || other.depType == DependencyType.devDependencies)
              && (snap.workspaceByIdent other.ident).isSome then []
      else [Effect.depUpdate d.workspaceCwd d.depType d.ident other.range])) =
    (l.filter (fun o => !IGNORE_CONSISTENT_DEPENDENCIES_FOR.contains o.workspaceCwd &&
      !(o.depType == DependencyType.peerDependencies))).map
      (fun o => Effect.depUpdate d.workspaceCwd d.depType d.ident o.range) := by
  induction l with
  | nil => rfl
  | cons o rest ih =>
    have ho : o.ident = d.ident := hl o (List.mem_cons_self _ _)
    have hrest : ∀ o' ∈ rest, o'.ident = d.ident :=
      fun o' h => hl o' (List.mem_cons_of_mem _ h)
    rw [List.flatMap_cons, List.filter_cons, ih hrest]
    by_cases h1 : o.workspaceCwd ∈ IGNORE_CONSISTENT_DEPENDENCIES_FOR
    · simp [h1]
    · by_cases h2 : o.depType = DependencyType.peerDependencies
      · simp [h1, h2]
      · have h3 : (snap.workspaceByIdent o.ident).isSome = false := by
          rw [ho, hws]; rfl
        simp [h1, h2, h3]

/-- A run of consecutive updates keyed to a dependency leaves it at the range of
the last of them (or at the accumulator when there are none). -/
theorem stagedRangeAux_updates_last (d : Dependency) (os : List Dependency)
    (acc : Option String) :
    stagedRangeAux d acc (os.map
      (fun o => Effect.depUpdate d.workspaceCwd d.depType d.ident o.range)) =
    (os.getLast?).elim acc (fun o => some o.range) := by
  induction os generalizing acc with
  | nil => rfl
  | cons o rest ih =>
    have hc : (d.workspaceCwd == d.workspaceCwd && d.depType == d.depType &&
        d.ident == d.ident) = true := by simp
    rw [List.map_cons]
    simp only [stagedRangeAux, hc, if_true]
    rw [ih]
    cases rest with
    | nil => rfl
    | cons r t =>
      rw [List.getLast?_cons_cons]
      have hsome : ((r :: t).getLast?).isSome := List.getLast?_isSome.mpr (by simp)
      obtain ⟨x, hx⟩ := Option.isSome_iff_exists.mp hsome
      rw [hx]
      rfl

/-- C3 (amended): for every dependency that is not ignore-listed, not of peer
type, whose identifier names no workspace of the project, and that is the unique
dependency with its (workspace, type, identifier) key, the consistency rule
stages an update per matching non-ignored non-peer dependency (itself included)
in encounter order, so the staged range equals the LAST encountered matching
range. -/
theorem consistent_rule_staged_range_eq_last_matching (snap : Snapshot)
    (d : Dependency)
    (hkey : snap.dependencies.filter (fun d' =>
      d'.workspaceCwd == d.workspaceCwd && d'.depType == d.depType &&
      d'.ident == d.ident) = [d])
    (hig : IGNORE_CONSISTENT_DEPENDENCIES_FOR.contains d.workspaceCwd = false)
    (hpeer : (d.depType == DependencyType.peerDependencies) = false)
    (hws : snap.workspaceByIdent d.ident = none) :
    stagedRange (enforceConsistentDependenciesAcrossTheProject snap) d =
      (consistentMatching snap d).getLast?.map Dependency.range := by
  have hPd : (d.workspaceCwd == d.workspaceCwd && d.depType == d.depType &&
      d.ident == d.ident) = true := by simp
  have hdf : d ∈ snap.dependencies.filter (fun d' =>
      d'.workspaceCwd == d.workspaceCwd && d'.depType == d.depType &&
      d'.ident == d.ident) := by
    rw [hkey]; exact List.mem_singleton.mpr rfl
  have hd : d ∈ snap.dependencies := List.mem_of_mem_filter hdf
  obtain ⟨l1, l2, hsplit⟩ := List.append_of_mem hd
  have hfilter : (l1.filter (fun d' =>
      d'.workspaceCwd == d.workspaceCwd && d'.depType == d.depType &&
      d'.ident == d.ident)) ++ d :: (l2.filter (fun d' =>
      d'.workspaceCwd == d.workspaceCwd && d'.depType == d.depType &&
      d'.ident == d.ident)) = [d] := by
    rw [← hkey, hsplit, List.filter_append, List.filter_cons, if_pos hPd]
  have hlen := congrArg List.length hfilter
  simp only [List.length_append, List.length_cons, List.length_nil] at hlen
  have hn1 : (l1.filter (fun d' =>
      d'.workspaceCwd == d.workspaceCwd && d'.depType == d.depType &&
      d'.ident == d.ident)) = [] := by
    rw [← List.length_eq_zero]
    omega
  have hn2 : (l2.filter (fun d' =>
      d'.workspaceCwd == d.workspaceCwd && d'.depType == d.depType &&
      d'.ident == d.ident)) = [] := by
    rw [← List.length_eq_zero]
    omega
  have hno1 := List.filter_eq_nil_iff.mp hn1
  have hno2 := List.filter_eq_nil_iff.mp hn2
  have hnt : ∀ (l : List Dependency),
      (∀ d' ∈ l, ¬((d'.workspaceCwd == d.workspaceCwd && d'.depType == d.depType &&
        d'.ident == d.ident) = true)) →
      ∀ e ∈ l.flatMap (consistentBlock snap), e.touchesDep d = false := by
    intro l hno e he
    rw [List.mem_flatMap] at he
    obtain ⟨d', hd', he⟩ := he
    obtain ⟨r, rfl⟩ := mem_consistentBlock snap d' e he
    simp only [Effect.touchesDep]
    cases hb : (d'.workspaceCwd == d.workspaceCwd && d'.depType == d.depType &&
        d'.ident == d.ident) with
    | false => rfl
    | true => exact absurd hb (hno d' hd')
  have hmid : consistentBlock snap d = (consistentMatching snap d).map
      (fun o => Effect.depUpdate d.workspaceCwd d.depType d.ident o.range) := by
    rw [consistentBlock, if_neg (by rw [hig]; simp), if_neg (by rw [hpeer]; simp),
      consistentMatching]
    exact consistentBlock_inner_eq snap d hws (snap.dependenciesByIdent d.ident)
      (fun o ho => by
        have := (List.mem_filter.mp ho).2
        simpa using this)
  have heff : enforceConsistentDependenciesAcrossTheProject snap =
      l1.flatMap (consistentBlock snap) ++
        (consistentBlock snap d ++ l2.flatMap (consistentBlock snap)) := by
    rw [enforceConsistentDependenciesAcrossTheProject, hsplit, List.flatMap_append,
      List.flatMap_cons]
  have hmem : d ∈ consistentMatching snap d := by
    rw [consistentMatching]
    refine List.mem_filter.mpr ⟨?_, ?_⟩
    · simp [Snapshot.dependenciesByIdent, List.mem_filter, hd]
    · rw [hig, hpeer]
      rfl
  have hne : consistentMatching snap d ≠ [] := List.ne_nil_of_mem hmem
  obtain ⟨x, hx⟩ := Option.isSome_iff_exists.mp (List.getLast?_isSome.mpr hne)
  rw [stagedRange, heff, stagedRangeAux_append, stagedRangeAux_append]
  rw [stagedRangeAux_no_touch d _ _ (hnt l1 hno1)]
  rw [hmid, stagedRangeAux_updates_last]
  rw [stagedRangeAux_no_touch d _ _ (hnt l2 hno2)]
  rw [hx]
  rfl

/-- Closed instance of the amended C3: at the three-workspace example the staged
range of the first workspace's x equals the range of the last matching
dependency. -/
theorem consistent_rule_staged_range_eq_last_matching_witness :
    (c3Snapshot.dependencies.filter (fun d' =>
      d'.workspaceCwd == c3DepA.workspaceCwd && d'.depType == c3DepA.depType &&
      d'.ident == c3DepA.ident) = [c3DepA]) ∧
    stagedRange (enforceConsistentDependenciesAcrossTheProject c3Snapshot) c3DepA =
      (consistentMatching c3Snapshot c3DepA).getLast?.map Dependency.range := by
  have hkey : c3Snapshot.dependencies.filter (fun d' =>
      d'.workspaceCwd == c3DepA.workspaceCwd && d'.depType == c3DepA.depType &&
      d'.ident == c3DepA.ident) = [c3DepA] := rfl
  exact ⟨hkey, consistent_rule_staged_range_eq_last_matching c3Snapshot c3DepA
    hkey rfl rfl rfl⟩

/-- Reading a singleton path is reading the field. -/
theorem jvalueGetPath_single (v : JValue) (sf : String) :
    jvalueGetPath v [sf] = jvalueGet v sf := by
  simp only [jvalueGetPath]
  cases jvalueGet v sf <;> rfl

/-- Reading a one-field path on a manifest is the plain field lookup. -/
theorem manifestGetPath_single (m : List (String × JValue)) (f : String) :
    manifestGetPath m [f] = manifestGet m f := by
  simp only [manifestGetPath]
  cases manifestGet m f <;> rfl

/-- Reading a two-field path on a manifest is the optional-chained sub-field
lookup the rule performs. -/
theorem manifestGetPath_pair (m : List (String × JValue)) (f sf : String) :
    manifestGetPath m [f, sf] = (manifestGet m f).bind (fun x => jvalueGet x sf) := by
  simp only [manifestGetPath]
  cases manifestGet m f with
  | none => rfl
  | some v => exact jvalueGetPath_single v sf

/-- C2: on an already-corrected snapshot (every dependency matching a configured
identifier already has the configured range, and on every non-root workspace
every enforced template field already holds the enforced value, deep equality,
sub-field-wise for object-valued template fields), running the evaluator
produces zero staged changes and zero diagnostics. -/
theorem evaluator_idempotent_on_corrected (snap : Snapshot)
    (fields : List (String × JValue))
    (H1 : ∀ d ∈ snap.dependencies, ∀ pr ∈ allowedRanges,
      d.ident = pr.1 → d.range = pr.2)
    (H2 : ∀ w ∈ snap.workspaces, (w.cwd == ".") = false → ∀ fv ∈ fields,
      (∀ subs, fv.2 = JValue.obj subs → ∀ sv ∈ subs,
        jvalueOptEq ((manifestGet w.manifest fv.1).bind (fun x => jvalueGet x sv.1))
          sv.2 = true) ∧
      ((∀ subs, fv.2 ≠ JValue.obj subs) →
        jvalueOptEq (manifestGet w.manifest fv.1) fv.2 = true)) :
    stagedChanges snap (runEvaluator snap fields) = [] ∧
    diagnostics (runEvaluator snap fields) = [] := by
  have hlist : constraintsPart000 snap =
      (snap.dependenciesByIdent "expo").map
        (fun d' => Effect.depUpdate d'.workspaceCwd d'.depType d'.ident "~50.0.0") := by
    simp [constraintsPart000, enforceDependencyRanges, allowedRanges]
  have hpart000 : ∀ e ∈ constraintsPart000 snap, Effect.isEffective snap e = false := by
    intro e he
    rw [hlist] at he
    simp only [List.mem_map] at he
    obtain ⟨d', hd', he⟩ := he
    simp only [Snapshot.dependenciesByIdent, List.mem_filter] at hd'
    have hrange : ∀ d2 ∈ snap.dependencies,
        (d2.workspaceCwd == d'.workspaceCwd && d2.depType == d'.depType &&
          d2.ident == d'.ident) = true → d2.range = "~50.0.0" := by
      intro d2 hd2 hcond
      simp only [Bool.and_eq_true, beq_iff_eq] at hcond
      have hid : d2.ident = "expo" := by
        rw [hcond.2]; simpa using hd'.2
      exact H1 d2 hd2 ("expo", "~50.0.0") (List.mem_singleton.mpr rfl) hid
    rw [← he]
    simp only [Effect.isEffective]
    rw [List.any_eq_false]
    intro d2 hd2
    rw [List.mem_filter] at hd2
    have := hrange d2 hd2.1 hd2.2
    simp [this]
  have hfields : ∀ e ∈ enforceFieldsFromCustomPackage snap fields,
      Effect.isEffective snap e = false := by
    intro e he
    rcases (mem_enforceFields_iff snap fields e).mp he with
      ⟨w', hw', hroot', fv', hfv', he'⟩
    rcases mem_enforceFieldEffects_shape w' fv'.1 fv'.2 e he' with
      ⟨subs', hv', sv', hsv', hE, -⟩ | ⟨hnobj, hE, -⟩
    · rw [hE]
      simp only [Effect.isEffective]
      rw [List.any_eq_false]
      intro w2 hw2
      rw [List.mem_filter] at hw2
      have hcwd : w2.cwd = w'.cwd := by simpa using hw2.2
      have hroot2 : (w2.cwd == ".") = false := by rw [hcwd]; exact hroot'
      have hok : jvalueOptEq (manifestGetPath w2.manifest [fv'.1, sv'.1]) sv'.2
          = true := by
        rw [manifestGetPath_pair]
        exact (H2 w2 hw2.1 hroot2 fv' hfv').1 subs' hv' sv' hsv'
      simp [hok]
    · rw [hE]
      simp only [Effect.isEffective]
      rw [List.any_eq_false]
      intro w2 hw2
      rw [List.mem_filter] at hw2
      have hcwd : w2.cwd = w'.cwd := by simpa using hw2.2
      have hroot2 : (w2.cwd == ".") = false := by rw [hcwd]; exact hroot'
      have hok : jvalueOptEq (manifestGetPath w2.manifest [fv'.1]) fv'.2 = true := by
        rw [manifestGetPath_single]
        exact (H2 w2 hw2.1 hroot2 fv' hfv').2 hnobj
      simp [hok]
  constructor
  · rw [stagedChanges, List.filter_eq_nil_iff]
    intro e he
    rw [runEvaluator, List.mem_append] at he
    rcases he with he | he
    · simp [hfields e he]
    · simp [hpart000 e he]
  · rw [diagnostics, List.filter_eq_nil_iff]
    intro e he
    rw [runEvaluator, List.mem_append] at he
    rcases he with he | he
    · rcases (mem_enforceFields_iff snap fields e).mp he with
        ⟨w', hw', hroot', fv', hfv', he'⟩
      rcases mem_enforceFieldEffects_shape w' fv'.1 fv'.2 e he' with
        ⟨subs', hv', sv', hsv', hE, -⟩ | ⟨hnobj, hE, -⟩ <;>
        rw [hE] <;> simp [Effect.isDiagnostic]
    · rw [hlist] at he
      simp only [List.mem_map] at he
      obtain ⟨d', hd', he⟩ := he
      rw [← he]
      simp [Effect.isDiagnostic]

/-- Closed instance of C2: the already-corrected example snapshot (with a
scalar and an array-valued enforced field, the latter staged as a no-op write
because a separately parsed array is never strictly equal) yields no staged
changes and no diagnostics. -/
theorem evaluator_idempotent_on_corrected_witness :
    stagedChanges c2Snapshot (runEvaluator c2Snapshot c2Fields) = [] ∧
    diagnostics (runEvaluator c2Snapshot c2Fields) = [] := by
  apply evaluator_idempotent_on_corrected
  · intro d hd pr hpr hid
    have hd' : d = c2Dependency := by simpa [c2Snapshot] using hd
    have hpr' : pr = ("expo", "~50.0.0") := by simpa [allowedRanges] using hpr
    rw [hd', hpr']
    rfl
  · intro w hw hroot fv hfv
    have hw' : w = c2Workspace := by simpa [c2Snapshot] using hw
    subst hw'
    have hfv' : fv = ("license", JValue.str "MIT") ∨
        fv = ("keywords", JValue.arr [JValue.str "app"]) := by
      simpa [c2Fields] using hfv
    rcases hfv' with rfl | rfl
    · constructor
      · intro subs h
        exact absurd h (fun hh => JValue.noConfusion hh)
      · intro _
        rfl
    · constructor
      · intro subs h
        exact absurd h (fun hh => JValue.noConfusion hh)
      · intro _
        rfl

/-- A template value `Object.entries` accepts makes the workspace loop succeed
with exactly the effects of the field-enforcement rule. -/
theorem enforceFieldsLoop_ok (fields : JValue) (entries : List (String × JValue))
    (hentries : jsObjectEntries fields = Except.ok entries) :
    ∀ ws : List Workspace, enforceFieldsLoop fields ws =
      Except.ok (ws.flatMap (fun w =>
        if w.cwd == "." then [] else enforceFieldsForWorkspace w entries)) := by
  intro ws
  induction ws with
  | nil => rfl
  | cons w rest ih =>
    rw [List.flatMap_cons]
    by_cases hc : (w.cwd == ".") = true
    · simp only [enforceFieldsLoop, hc, if_true, ih, List.nil_append]
    · have hc' : (w.cwd == ".") = false := by simpa using hc
      simp only [enforceFieldsLoop, hc', Bool.false_eq_true, if_false, hentries, ih]

/-- A null template makes the workspace loop throw the TypeError at the first
non-root workspace, and succeed with nothing staged when every workspace is the
root. -/
theorem enforceFieldsLoop_null (ws : List Workspace) :
    (ws.any (fun w => !(w.cwd == ".")) = true →
      enforceFieldsLoop JValue.null ws = Except.error RunError.entriesOfNull) ∧
    (ws.any (fun w => !(w.cwd == ".")) = false →
      enforceFieldsLoop JValue.null ws = Except.ok []) := by
  induction ws with
  | nil =>
    constructor
    · intro h
      simp at h
    · intro _
      rfl
  | cons w rest ih =>
    by_cases hc : (w.cwd == ".") = true
    · constructor
      · intro h
        rw [List.any_cons, hc] at h
        simp only [Bool.not_true, Bool.false_or] at h
        simp only [enforceFieldsLoop, hc, if_true]
        exact ih.1 h
      · intro h
        rw [List.any_cons, hc] at h
        simp only [Bool.not_true, Bool.false_or] at h
        simp only [enforceFieldsLoop, hc, if_true]
        exact ih.2 h
    · have hc' : (w.cwd == ".") = false := by simpa using hc
      constructor
      · intro _
        simp only [enforceFieldsLoop, hc', Bool.false_eq_true, if_false]
        rfl
      · intro h
        rw [List.any_cons, hc'] at h
        simp at h
    
/-- C4 counterexample: a present but malformed template file aborts the run
with the JSON parse error, an exception distinct from the missing-file
configuration error the claim designates as the only possible abort; a template
parsing to JSON null even aborts while the field-enforcement rule is running.
So the missing-file error is not the only exception that can abort an
evaluation run. -/
theorem only_missing_template_aborts_counterexample :
    constraintsYarnConfig TemplateFile.malformed c5Snapshot =
      Except.error RunError.jsonParseError ∧
    RunError.jsonParseError ≠ RunError.missingTemplate "./template-package.json" ∧
    constraintsYarnConfig (TemplateFile.parsed JValue.null) c5Snapshot =
      Except.error RunError.entriesOfNull :=
  ⟨rfl, fun h => RunError.noConfusion h, rfl⟩

/-- C4 (amended): the exceptions that can abort an evaluation run are the
template configuration errors: an absent template file and a template that
fails to parse each abort before any rule has run (the error carries no staged
corrections and no diagnostics), a template parsing to JSON null makes the
field-enforcement rule throw at the first non-root workspace (again nothing is
staged or reported), and for every template value `Object.entries` accepts the
run completes without exception, carrying exactly the rule's staged effects. -/
theorem template_errors_only_abort_evaluation :
    (∀ snap : Snapshot, constraintsYarnConfig TemplateFile.absent snap =
      Except.error (RunError.missingTemplate "./template-package.json")) ∧
    (∀ snap : Snapshot, constraintsYarnConfig TemplateFile.malformed snap =
      Except.error RunError.jsonParseError) ∧
    (∀ snap : Snapshot,
      (snap.workspaces.any (fun w => !(w.cwd == ".")) = true →
        constraintsYarnConfig (TemplateFile.parsed JValue.null) snap =
          Except.error RunError.entriesOfNull) ∧
      (snap.workspaces.any (fun w => !(w.cwd == ".")) = false →
        constraintsYarnConfig (TemplateFile.parsed JValue.null) snap =
          Except.ok [])) ∧
    (∀ (snap : Snapshot) (v : JValue) (entries : List (String × JValue)),
      jsObjectEntries v = Except.ok entries →
      constraintsYarnConfig (TemplateFile.parsed v) snap =
        Except.ok (enforceFieldsFromCustomPackage snap entries)) := by
  refine ⟨fun _ => rfl, fun _ => rfl, fun snap => ?_, fun snap v entries hv => ?_⟩
  · exact enforceFieldsLoop_null snap.workspaces
  · exact enforceFieldsLoop_ok v entries hv snap.workspaces

/-- Closed instance of the amended C4: on the example snapshot a null template
aborts with the TypeError, while an object template runs to completion with
exactly the rule's staged effects. -/
theorem template_errors_only_abort_evaluation_witness :
    c5Snapshot.workspaces.any (fun w => !(w.cwd == ".")) = true ∧
    constraintsYarnConfig (TemplateFile.parsed JValue.null) c5Snapshot =
      Except.error RunError.entriesOfNull ∧
    jsObjectEntries (JValue.obj c9Fields) = Except.ok c9Fields ∧
    constraintsYarnConfig (TemplateFile.parsed (JValue.obj c9Fields)) c5Snapshot =
      Except.ok (enforceFieldsFromCustomPackage c5Snapshot c9Fields) := by
  have h1 : c5Snapshot.workspaces.any (fun w => !(w.cwd == ".")) = true := rfl
  have h2 : jsObjectEntries (JValue.obj c9Fields) = Except.ok c9Fields := rfl
  exact ⟨h1, (template_errors_only_abort_evaluation.2.2.1 c5Snapshot).1 h1, h2,
    template_errors_only_abort_evaluation.2.2.2 c5Snapshot (JValue.obj c9Fields)
      c9Fields h2⟩
